import Mathlib

/-!
# Shopping-cart reducers of `src/src/CartSlice.jsx`

A shallow embedding of the three Redux reducers `addItem`, `removeItem` and
`updateQuantity`, together with the fragment of JavaScript semantics they rely on
(truthiness, `typeof`, strict equality, reads through an Immer draft, optional chaining,
property reads on `undefined`/`null`, `||`, `+ 1`, `<= 0`, string conversion in a template
literal).

Modelling notes.
* A JavaScript value is `undefined`, `null`, a boolean, a number, a string, a symbol or a
  plain record (own string-keyed data properties, prototype `Object.prototype`); functions,
  accessors and arrays are outside the universe, and a payload carries no proxy.
* Numbers are `NaN`, the two infinities and the finite values, the latter taken as rationals
  (a superset of the finite doubles; `+0` and `-0` are both `fin 0`).  A sum is rounded to
  the nearest value with a 53-bit significand, ties to even, as IEEE-754 does; the exponent
  range is not bounded, which `x + 1` never leaves when `x` is a double.
* Records carry a reference number: strict equality of two records is identity of reference.
* The reducers run under Immer (`createSlice`): `state` is a draft. A cart entry is held by
  value, as its list of own properties; a record-valued property read from the draft is a
  fresh proxy, which is `===` to no value of the payload (`draftEq`).  `console.error` only
  writes to the console and is not part of the state.
* A reducer either returns the next state or raises a `TypeError`.
-/

namespace CartSlice

/-! ## JavaScript numbers -/

/-- A JavaScript number. -/
inductive JSNum where
  | nan
  | posInf
  | negInf
  | fin (q : ℚ)
  deriving DecidableEq

/-- Rounding of a rational to the nearest integer, a tie going to the even one. -/
def roundHalfEven (m : ℚ) : ℤ :=
  if m - ⌊m⌋ < 1 / 2 then ⌊m⌋
  else if 1 / 2 < m - ⌊m⌋ then ⌊m⌋ + 1
  else if ⌊m⌋ % 2 = 0 then ⌊m⌋ else ⌊m⌋ + 1

/-- Rounding of an exact result to the nearest value with a 53-bit significand, ties to
even: with `2^e <= |q| < 2^(e+1)` the representable values around `q` are the multiples of
`2^(e-52)`. -/
def roundDouble (q : ℚ) : ℚ :=
  if q = 0 then 0
  else roundHalfEven (q / (2 : ℚ) ^ (Int.log 2 |q| - 52)) * (2 : ℚ) ^ (Int.log 2 |q| - 52)

namespace JSNum

/-- Number addition `a + b`: the exact sum of two finite values, rounded. -/
def add : JSNum → JSNum → JSNum
  | nan, _ => nan
  | _, nan => nan
  | posInf, negInf => nan
  | negInf, posInf => nan
  | posInf, _ => posInf
  | _, posInf => posInf
  | negInf, _ => negInf
  | _, negInf => negInf
  | fin a, fin b => fin (roundDouble (a + b))

/-- The comparison `a <= b` on numbers (false as soon as one side is `NaN`). -/
def le : JSNum → JSNum → Bool
  | nan, _ => false
  | _, nan => false
  | negInf, _ => true
  | _, posInf => true
  | posInf, _ => false
  | _, negInf => false
  | fin a, fin b => decide (a ≤ b)

/-- The comparison `a > b` on numbers (false as soon as one side is `NaN`). -/
def gt : JSNum → JSNum → Bool
  | nan, _ => false
  | _, nan => false
  | _, posInf => false
  | negInf, _ => false
  | posInf, _ => true
  | _, negInf => true
  | fin a, fin b => decide (b < a)

/-- Strict equality of two numbers: `NaN` equals nothing, not even itself. -/
def eq : JSNum → JSNum → Bool
  | nan, _ => false
  | _, nan => false
  | a, b => decide (a = b)

/-- ToBoolean on a number: `0` and `NaN` are falsy. -/
def truthy : JSNum → Bool
  | nan => false
  | fin q => decide (q ≠ 0)
  | _ => true

/-- The number is an integer (a finite value without fractional part). -/
def isInteger : JSNum → Bool
  | fin q => decide (q.den = 1)
  | _ => false

end JSNum

/-! ## JavaScript values -/

/-- A JavaScript value: a primitive, or a plain record of own data properties. -/
inductive JSValue where
  | undefined
  | null
  | bool (b : Bool)
  | number (n : JSNum)
  | string (s : String)
  | symbol (id : Nat)
  | object (ref : Nat) (fields : List (String × JSValue))

/-- The exceptions a reducer can raise. -/
inductive JSError where
  | typeError
  deriving DecidableEq

/-- The own properties of a record, in enumeration order. -/
abbrev Fields := List (String × JSValue)

/-- A cart entry: the own properties of one element of `state.items`. -/
abbrev Entry := Fields

/-- The state of the slice: `{ items: [...] }`. -/
structure CartState where
  items : List Entry

/-- ToBoolean: `undefined`, `null`, `false`, `0`, `NaN` and `""` are falsy. -/
def toBoolean : JSValue → Bool
  | .undefined => false
  | .null => false
  | .bool b => b
  | .number n => n.truthy
  | .string s => decide (s ≠ "")
  | .symbol _ => true
  | .object _ _ => true

/-- The `typeof` operator. -/
def typeOf : JSValue → String
  | .undefined => "undefined"
  | .null => "object"
  | .bool _ => "boolean"
  | .number _ => "number"
  | .string _ => "string"
  | .symbol _ => "symbol"
  | .object _ _ => "object"

/-- Strict equality `a === b` of two values held outside a draft: two records are equal
when they are the same record (the same reference). The reducers compare a name read through
the draft, which is `draftEq`. -/
def strictEq : JSValue → JSValue → Bool
  | .undefined, .undefined => true
  | .null, .null => true
  | .bool a, .bool b => decide (a = b)
  | .number a, .number b => JSNum.eq a b
  | .string a, .string b => decide (a = b)
  | .symbol a, .symbol b => decide (a = b)
  | .object a _, .object b _ => decide (a = b)
  | _, _ => false

/-- Whether the value is a record. -/
def isRecord : JSValue → Bool
  | .object _ _ => true
  | _ => false

/-- The comparison `item.name === v` of the reducers, where `item` is an element of the
draft `state.items` and `stored` is its held name: a record read from the draft is a fresh
proxy, `===` to nothing the payload carries; any other value is read as itself. -/
def draftEq (stored v : JSValue) : Bool :=
  match stored with
  | .object _ _ => false
  | _ => strictEq stored v

/-- Read of the own property `k` of a record: its value, or `undefined` when absent. -/
def lookup (k : String) : Fields → JSValue
  | [] => .undefined
  | (k', v) :: rest => if k' = k then v else lookup k rest

/-- Whether the record has an own property `k`. -/
def hasOwn (k : String) : Fields → Bool
  | [] => false
  | (k', _) :: rest => if k' = k then true else hasOwn k rest

/-- Write of the property `k` of a record: an existing property keeps its place and takes
the new value, a new property is added last. -/
def setField (k : String) (v : JSValue) : Fields → Fields
  | [] => [(k, v)]
  | (k', v') :: rest => if k' = k then (k, v) :: rest else (k', v') :: setField k v rest

/-- The property read `v.k` for one of the keys the reducers read (`name`, `cost`,
`quantity`): a `TypeError` on `undefined` and `null`, the own property on a record,
`undefined` on the other primitives (their prototypes define none of these keys). -/
def getProp (v : JSValue) (k : String) : Except JSError JSValue :=
  match v with
  | .undefined => .error .typeError
  | .null => .error .typeError
  | .object _ fields => .ok (lookup k fields)
  | _ => .ok .undefined

/-- The optional chain `v?.k`: `undefined` on `undefined` and `null`, else as `v.k`. -/
def getOpt (v : JSValue) (k : String) : JSValue :=
  match v with
  | .object _ fields => lookup k fields
  | _ => .undefined

/-- The operator `a || b`. -/
def jsOr (a b : JSValue) : JSValue :=
  if toBoolean a then a else b

/-- The expression `v + 1`. A number is incremented, `undefined`, `null` and booleans are
converted to numbers first, a string is concatenated with `"1"`, a symbol raises, and a
record is converted to a primitive first: `[object Object]` by `Object.prototype.toString`,
unless an own `toString` property (never callable here) shadows it. -/
def addOne : JSValue → Except JSError JSValue
  | .undefined => .ok (.number .nan)
  | .null => .ok (.number (.fin 1))
  | .bool b => .ok (.number (.fin (if b then 2 else 1)))
  | .number n => .ok (.number (n.add (.fin 1)))
  | .string s => .ok (.string (s ++ "1"))
  | .symbol _ => .error .typeError
  | .object _ fields =>
      if hasOwn "toString" fields then .error .typeError
      else .ok (.string "[object Object]1")

/-- Whether ToString, as applied to a template-literal substitution, completes: it raises
a `TypeError` on a symbol and on a record whose own `toString` shadows the inherited one. -/
def toStringCompletes : JSValue → Bool
  | .symbol _ => false
  | .object _ fields => !hasOwn "toString" fields
  | _ => true

/-- The own enumerable properties copied by the spread `{...v}`: those of a record, the
indexed characters of a string, none for the other primitives. -/
def ownProps : JSValue → Fields
  | .object _ fields => fields
  | .string s => s.toList.enum.map (fun p => (toString p.1, JSValue.string (String.singleton p.2)))
  | _ => []

/-- The method `Array.prototype.findIndex`: the index of the first element satisfying the
predicate, `-1` when there is none. -/
def findIndex {α : Type} (p : α → Bool) : List α → Int
  | [] => -1
  | x :: xs =>
      if p x then 0
      else
        let r := findIndex p xs
        if r ≥ 0 then r + 1 else -1

/-! ## The slice -/

/-- The initial state `{ items: [] }`. -/
def initialState : CartState := { items := [] }

/-- The reducer `addItem` (lines 17-36). -/
def addItem (state : CartState) (payload : JSValue) : Except JSError CartState :=
  let plant := payload
  if !toBoolean (getOpt plant "name") || !toBoolean (getOpt plant "cost") then
    -- console.error('Invalid plant data provided to addItem'); return;
    .ok state
  else do
    let plantName ← getProp plant "name"
    let existingIndex := findIndex (fun item => draftEq (lookup "name" item) plantName) state.items
    if existingIndex ≥ 0 then
      match state.items[existingIndex.toNat]? with
      | none => .error .typeError
      | some item =>
          let quantity ← addOne (jsOr (lookup "quantity" item) (.number (.fin 1)))
          .ok { items := state.items.set existingIndex.toNat (setField "quantity" quantity item) }
    else
      .ok { items := state.items ++ [setField "quantity" (.number (.fin 1)) (ownProps plant)] }

/-- The reducer `removeItem` (lines 42-50). -/
def removeItem (state : CartState) (payload : JSValue) : Except JSError CartState :=
  let name := if typeOf payload = "string" then payload else getOpt payload "name"
  if !toBoolean name then
    -- console.error('Invalid plant name provided to removeItem'); return;
    .ok state
  else
    .ok { items := state.items.filter (fun item => !draftEq (lookup "name" item) name) }

/-- The reducer `updateQuantity` (lines 58-77). The guard `typeof quantity !== 'number'`
is the match on `quantity`. -/
def updateQuantity (state : CartState) (payload : JSValue) : Except JSError CartState := do
  let source := jsOr payload (.object 0 [])
  let name ← getProp source "name"
  let quantity ← getProp source "quantity"
  if !toBoolean name then
    -- console.error('Invalid data provided to updateQuantity'); return;
    .ok state
  else
    match quantity with
    | .number q =>
        let idx := findIndex (fun item => draftEq (lookup "name" item) name) state.items
        if idx ≥ 0 then
          if q.le (.fin 0) then
            .ok { items := state.items.eraseIdx idx.toNat }
          else
            match state.items[idx.toNat]? with
            | none => .error .typeError
            | some item =>
                .ok { items := state.items.set idx.toNat (setField "quantity" (.number q) item) }
        else if toStringCompletes name then
          -- console.error(`Item "${name}" not found in cart`);
          .ok state
        else
          .error .typeError
    | _ =>
        -- console.error('Invalid data provided to updateQuantity'); return;
        .ok state

/-- A dispatched action of the slice. -/
inductive Action where
  | addItem (payload : JSValue)
  | removeItem (payload : JSValue)
  | updateQuantity (payload : JSValue)

/-- The slice reducer `CartSlice.reducer`: the case reducer of the action's type. -/
def reducer (state : CartState) : Action → Except JSError CartState
  | .addItem payload => addItem state payload
  | .removeItem payload => removeItem state payload
  | .updateQuantity payload => updateQuantity state payload

/-- One dispatch on the store: the reducer's result becomes the state; when the reducer
raises, the store keeps the state it had. -/
def dispatch (state : CartState) (action : Action) : CartState :=
  match reducer state action with
  | .ok next => next
  | .error _ => state

/-- The state of the store after a sequence of dispatches from the initial state. -/
def dispatchAll (actions : List Action) : CartState :=
  actions.foldl dispatch initialState

/-! ## Predicates of the specification -/

/-- No two entries of the sequence have the same name (`===`). -/
def NamesUnique (items : List Entry) : Prop :=
  items.Pairwise (fun a b => strictEq (lookup "name" a) (lookup "name" b) = false)

/-- The name `removeItem` resolves from its payload: the payload itself when it is a string,
its `name` property otherwise. -/
def resolveName (payload : JSValue) : JSValue :=
  if typeOf payload = "string" then payload else getOpt payload "name"

/-- The quantity of the entry is a number for which `<= 0` is false. -/
def QuantityOk (e : Entry) : Prop :=
  ∃ n, lookup "quantity" e = .number n ∧ n.le (.fin 0) = false

/-- The quantity of the entry is an integer that is at least 1. -/
def QuantityPosInt (e : Entry) : Prop :=
  ∃ k : Nat, 1 ≤ k ∧ lookup "quantity" e = .number (.fin (k : ℚ))

/-- Every numeric quantity carried by an `updateQuantity` dispatch of the sequence is an
integer. -/
def IntegerUpdates (actions : List Action) : Prop :=
  ∀ p q, Action.updateQuantity p ∈ actions → getOpt p "quantity" = .number q →
    q.isInteger = true

/-- The number of entries of the sequence whose name is `n`. -/
def countNamed (n : JSValue) (items : List Entry) : Nat :=
  (items.filter (fun e => strictEq (lookup "name" e) n)).length

/-- A valid `addItem` dispatch: the payload has a truthy `name` and a truthy `cost`. -/
def validPlant (p : JSValue) : Bool :=
  toBoolean (getOpt p "name") && toBoolean (getOpt p "cost")

/-- The number of valid dispatches of the list that carry the name `n`. -/
def countDispatches (n : JSValue) (ps : List JSValue) : Nat :=
  (ps.filter (fun p => validPlant p && strictEq (getOpt p "name") n)).length

/-- The first valid dispatch of each name, in the order of the list: a valid payload comes
first, followed by the first valid dispatches of the later payloads of every other name. -/
def firstDispatches : List JSValue → List JSValue
  | [] => []
  | p :: ps =>
      if validPlant p then
        p :: (firstDispatches ps).filter (fun r => !strictEq (getOpt r "name") (getOpt p "name"))
      else firstDispatches ps

/-- The entry the specification assigns to a first dispatch `p` of the list: the fields of
`p`, with the number of valid dispatches carrying its name as quantity. -/
def tallyEntry (ps : List JSValue) (p : JSValue) : Entry :=
  setField "quantity" (.number (.fin (countDispatches (getOpt p "name") ps : ℚ))) (ownProps p)

/-- The cart the specification assigns to a list of `addItem` dispatches on the empty cart:
one entry per first valid dispatch, in that order. -/
def tally (ps : List JSValue) : List Entry :=
  (firstDispatches ps).map (tallyEntry ps)

/-! ## Concrete payloads and entries -/

/-- The plant `{name: "Fern", cost: 5}`. -/
def fern : JSValue := .object 1 [("name", .string "Fern"), ("cost", .number (.fin 5))]

/-- The payload `{name: "Fern", quantity: q}`. -/
def fernQuantity (q : JSNum) : JSValue :=
  .object 2 [("name", .string "Fern"), ("quantity", .number q)]

/-- The payload `{name: Symbol(), quantity: 1}`. -/
def symbolNamed : JSValue := .object 3 [("name", .symbol 0), ("quantity", .number (.fin 1))]

/-- The entry `{name: "Oak", cost: 7, quantity: 1}`. -/
def oakEntry : Entry :=
  [("name", .string "Oak"), ("cost", .number (.fin 7)), ("quantity", .number (.fin 1))]

/-- The entry `{name: "Fern", cost: 5, quantity: q}`. -/
def fernEntry (q : JSNum) : Entry :=
  [("name", .string "Fern"), ("cost", .number (.fin 5)), ("quantity", .number q)]

/-- The entry `{name: n, cost: 1, quantity: 1}`. -/
def plainEntry (n : String) : Entry :=
  [("name", .string n), ("cost", .number (.fin 1)), ("quantity", .number (.fin 1))]

/-- A record `n = {}` used as a name. -/
def recordName : JSValue := .object 20 []

/-- The plant `{name: n, cost: 5}` whose name is the record `n`. -/
def recordNamed : JSValue :=
  .object 21 [("name", recordName), ("cost", .number (.fin 5))]

/-- The entry `{name: n, cost: 5, quantity: q}` whose name is the record `n`. -/
def recordEntry (q : JSNum) : Entry :=
  [("name", recordName), ("cost", .number (.fin 5)), ("quantity", .number q)]

/-! ## Rounding -/

theorem roundHalfEven_intCast (n : ℤ) : roundHalfEven (n : ℚ) = n := by
  simp [roundHalfEven]

theorem floor_le_roundHalfEven (m : ℚ) : ⌊m⌋ ≤ roundHalfEven m := by
  unfold roundHalfEven
  split
  · exact le_refl _
  · split
    · omega
    · split <;> omega

/-- A positive value rounds to a positive value. -/
theorem roundDouble_pos (q : ℚ) (h : 0 < q) : 0 < roundDouble q := by
  have hne : q ≠ 0 := ne_of_gt h
  have habs : |q| = q := abs_of_pos h
  simp only [roundDouble, hne, if_false, habs]
  have hulp : (0 : ℚ) < (2 : ℚ) ^ (Int.log 2 q - 52) := by positivity
  have h1 : (2 : ℚ) ^ (Int.log 2 q) ≤ q := by
    have := Int.zpow_log_le_self (b := 2) (r := q) (by norm_num) h
    simpa using this
  have h2 : (2 : ℚ) ^ (Int.log 2 q - 52) ≤ (2 : ℚ) ^ (Int.log 2 q) :=
    zpow_le_zpow_right₀ (by norm_num) (by omega)
  have hm : (1 : ℚ) ≤ q / (2 : ℚ) ^ (Int.log 2 q - 52) := by
    rw [le_div_iff₀ hulp]
    linarith
  have hf : (1 : ℤ) ≤ ⌊q / (2 : ℚ) ^ (Int.log 2 q - 52)⌋ := Int.le_floor.mpr (by simpa using hm)
  have hr := floor_le_roundHalfEven (q / (2 : ℚ) ^ (Int.log 2 q - 52))
  have : (0 : ℚ) < (roundHalfEven (q / (2 : ℚ) ^ (Int.log 2 q - 52)) : ℚ) := by
    exact_mod_cast (by omega : (0 : ℤ) < roundHalfEven (q / (2 : ℚ) ^ (Int.log 2 q - 52)))
  positivity

/-- A natural number below `2^53` is representable: rounding leaves it as it is. -/
theorem roundDouble_natCast_small (k : ℕ) (hk : k < 2 ^ 53) : roundDouble (k : ℚ) = k := by
  by_cases h0 : k = 0
  · subst h0; simp [roundDouble]
  have hne : (k : ℚ) ≠ 0 := by exact_mod_cast h0
  have habs : |(k : ℚ)| = k := abs_of_nonneg (by positivity)
  have hlog : Int.log 2 (k : ℚ) = (Nat.log 2 k : ℤ) := Int.log_natCast 2 k
  have hle : Nat.log 2 k ≤ 52 := by
    have := Nat.log_lt_of_lt_pow h0 hk
    omega
  simp only [roundDouble, hne, if_false, habs, hlog]
  have hulp : (2 : ℚ) ^ ((Nat.log 2 k : ℤ) - 52) = ((2 ^ (52 - Nat.log 2 k) : ℕ) : ℚ)⁻¹ := by
    have : ((Nat.log 2 k : ℤ) - 52) = -((52 - Nat.log 2 k : ℕ) : ℤ) := by omega
    rw [this, zpow_neg, zpow_natCast]
    push_cast
    rfl
  rw [hulp, div_inv_eq_mul]
  have hm : (k : ℚ) * ((2 ^ (52 - Nat.log 2 k) : ℕ) : ℚ) =
      (((k * 2 ^ (52 - Nat.log 2 k) : ℕ) : ℤ) : ℚ) := by push_cast; rfl
  rw [hm, roundHalfEven_intCast]
  have hpos : ((2 ^ (52 - Nat.log 2 k) : ℕ) : ℚ) ≠ 0 := by positivity
  push_cast
  field_simp

/-- A positive natural number rounds to a positive natural number. -/
theorem roundDouble_natCast (k : ℕ) (hk : 1 ≤ k) :
    ∃ k' : ℕ, 1 ≤ k' ∧ roundDouble (k : ℚ) = k' := by
  by_cases hsmall : k < 2 ^ 53
  · exact ⟨k, hk, roundDouble_natCast_small k hsmall⟩
  · have hkpos : (0 : ℚ) < k := by exact_mod_cast hk
    have hne : (k : ℚ) ≠ 0 := ne_of_gt hkpos
    have habs : |(k : ℚ)| = k := abs_of_nonneg (by positivity)
    have hlog : Int.log 2 (k : ℚ) = (Nat.log 2 k : ℤ) := Int.log_natCast 2 k
    have hge : 53 ≤ Nat.log 2 k := by
      have : 2 ^ 53 ≤ k := by omega
      exact Nat.le_log_of_pow_le (by norm_num) this
    have hpos := roundDouble_pos (k : ℚ) hkpos
    simp only [roundDouble, hne, if_false, habs, hlog] at hpos ⊢
    have hulp : (2 : ℚ) ^ ((Nat.log 2 k : ℤ) - 52) = ((2 ^ (Nat.log 2 k - 52) : ℕ) : ℚ) := by
      have : ((Nat.log 2 k : ℤ) - 52) = ((Nat.log 2 k - 52 : ℕ) : ℤ) := by omega
      rw [this, zpow_natCast]
      push_cast
      rfl
    rw [hulp] at hpos ⊢
    set r := roundHalfEven ((k : ℚ) / ((2 ^ (Nat.log 2 k - 52) : ℕ) : ℚ)) with hr
    have hupos : (0 : ℚ) < ((2 ^ (Nat.log 2 k - 52) : ℕ) : ℚ) := by positivity
    have hrpos : 0 < r := by
      have : (0 : ℚ) < (r : ℚ) := by
        by_contra hcon
        have : (r : ℚ) ≤ 0 := not_lt.mp hcon
        have := mul_nonpos_of_nonpos_of_nonneg this (le_of_lt hupos)
        linarith
      exact_mod_cast this
    refine ⟨r.toNat * 2 ^ (Nat.log 2 k - 52), ?_, ?_⟩
    · have h1 : 1 ≤ r.toNat := by omega
      have h2 : 1 ≤ 2 ^ (Nat.log 2 k - 52) := Nat.one_le_two_pow
      exact Nat.mul_le_mul h1 h2 |>.trans' (by norm_num)
    · have : ((r.toNat : ℕ) : ℚ) = (r : ℚ) := by
        have := Int.toNat_of_nonneg (le_of_lt hrpos)
        exact_mod_cast congrArg (fun z : ℤ => (z : ℚ)) this
      push_cast
      rw [this]

theorem roundDouble_one_add_one : roundDouble (1 + 1) = 2 := by
  have := roundDouble_natCast_small 2 (by norm_num)
  norm_num at this ⊢
  exact this

/-! ## Basic facts about the JavaScript fragment -/

theorem lookup_setField_same (k : String) (v : JSValue) (f : Fields) :
    lookup k (setField k v f) = v := by
  induction f with
  | nil => simp [setField, lookup]
  | cons kv rest ih =>
      obtain ⟨k', v'⟩ := kv
      by_cases h : k' = k
      · simp [setField, lookup, h]
      · simp [setField, lookup, h, ih]

theorem lookup_setField_other (k k' : String) (v : JSValue) (f : Fields) (hk : k' ≠ k) :
    lookup k' (setField k v f) = lookup k' f := by
  induction f with
  | nil => simp [setField, lookup, Ne.symm hk]
  | cons kv rest ih =>
      obtain ⟨k₀, v₀⟩ := kv
      by_cases h : k₀ = k
      · subst h
        simp [setField, lookup, Ne.symm hk]
      · by_cases h' : k₀ = k'
        · subst h'
          simp [setField, lookup, h]
        · simp [setField, lookup, h, h', ih]

theorem name_setField_quantity (v : JSValue) (f : Fields) :
    lookup "name" (setField "quantity" v f) = lookup "name" f :=
  lookup_setField_other "quantity" "name" v f (by decide)

theorem isObject_of_truthy_getOpt (p : JSValue) (k : String) (h : toBoolean (getOpt p k) = true) :
    ∃ ref fields, p = .object ref fields := by
  cases p <;> simp_all [getOpt, toBoolean]

/-- When `findIndex` finds nothing, it returns `-1` and no element satisfies the predicate;
otherwise it returns the position of the first element that does. -/
theorem findIndex_spec (α : Type) (p : α → Bool) (xs : List α) :
    (findIndex p xs = -1 ∧ ∀ x ∈ xs, p x = false) ∨
    (∃ pre x post, xs = pre ++ x :: post ∧ findIndex p xs = (pre.length : Int) ∧
      p x = true ∧ ∀ y ∈ pre, p y = false) := by
  induction xs with
  | nil => left; simp [findIndex]
  | cons a xs ih =>
      by_cases ha : p a = true
      · right
        exact ⟨[], a, xs, by simp, by simp [findIndex, ha], ha, by simp⟩
      · have ha' : p a = false := by simpa using ha
        rcases ih with ⟨h1, h2⟩ | ⟨pre, x, post, hxs, hidx, hx, hpre⟩
        · left
          refine ⟨by simp [findIndex, ha', h1], ?_⟩
          intro y hy
          rcases List.mem_cons.mp hy with rfl | hy
          · exact ha'
          · exact h2 y hy
        · right
          refine ⟨a :: pre, x, post, by simp [hxs], ?_, hx, ?_⟩
          · simp only [findIndex, ha', hidx]
            simp
          · intro y hy
            rcases List.mem_cons.mp hy with rfl | hy
            · exact ha'
            · exact hpre y hy

theorem findIndex_cons (α : Type) (p : α → Bool) (x : α) (xs : List α) :
    findIndex p (x :: xs) =
      if p x then 0 else if findIndex p xs ≥ 0 then findIndex p xs + 1 else -1 := rfl

theorem findIndex_split (α : Type) (p : α → Bool) (pre post : List α) (x : α)
    (hx : p x = true) (hpre : ∀ y ∈ pre, p y = false) :
    findIndex p (pre ++ x :: post) = (pre.length : Int) := by
  induction pre with
  | nil => simp [findIndex, hx]
  | cons a pre ih =>
      have ha : p a = false := hpre a (by simp)
      have ih' := ih (fun y hy => hpre y (by simp [hy]))
      rw [List.cons_append, findIndex_cons, ih']
      simp [ha]

theorem findIndex_none (α : Type) (p : α → Bool) (xs : List α) (h : ∀ x ∈ xs, p x = false) :
    findIndex p xs = -1 := by
  rcases findIndex_spec α p xs with ⟨h1, _⟩ | ⟨pre, x, post, hxs, _, hx, _⟩
  · exact h1
  · have := h x (by simp [hxs])
    simp [this] at hx

theorem getElem?_split (α : Type) (pre post : List α) (x : α) :
    (pre ++ x :: post)[pre.length]? = some x := by
  induction pre with
  | nil => simp
  | cons a pre ih => simpa using ih

theorem set_split (α : Type) (pre post : List α) (x y : α) :
    (pre ++ x :: post).set pre.length y = pre ++ y :: post := by
  simp

theorem eraseIdx_split (α : Type) (pre post : List α) (x : α) :
    (pre ++ x :: post).eraseIdx pre.length = pre ++ post := by
  induction pre with
  | nil => simp
  | cons a pre ih => simp [ih]

theorem draftEq_false_of_strictEq (x v : JSValue) (h : strictEq x v = false) :
    draftEq x v = false := by
  cases x <;> simp_all [draftEq]

theorem draftEq_of_not_record (x v : JSValue) (hv : isRecord v = false) :
    draftEq x v = strictEq x v := by
  cases x <;> cases v <;> simp_all [draftEq, strictEq, isRecord]

/-! ## The reducers, case by case -/

theorem getProp_source (payload : JSValue) (k : String) :
    getProp (jsOr payload (.object 0 [])) k = .ok (getOpt payload k) := by
  cases payload with
  | bool b => cases b <;> simp [jsOr, toBoolean, getProp, getOpt, lookup]
  | number n => by_cases h : n.truthy = true <;> simp [jsOr, toBoolean, getProp, getOpt, lookup, h]
  | string s => by_cases h : s = "" <;> simp [jsOr, toBoolean, getProp, getOpt, lookup, h]
  | _ => simp [jsOr, toBoolean, getProp, getOpt, lookup]

theorem addItem_invalid (s : CartState) (p : JSValue)
    (h : toBoolean (getOpt p "name") = false ∨ toBoolean (getOpt p "cost") = false) :
    addItem s p = .ok s := by
  rcases h with h | h <;> simp [addItem, h]

theorem addItem_new (s : CartState) (ref : Nat) (fields : Fields)
    (hn : toBoolean (lookup "name" fields) = true) (hc : toBoolean (lookup "cost" fields) = true)
    (hnew : ∀ e ∈ s.items, draftEq (lookup "name" e) (lookup "name" fields) = false) :
    addItem s (.object ref fields) =
      .ok { items := s.items ++ [setField "quantity" (.number (.fin 1)) fields] } := by
  rcases findIndex_spec Entry (fun item => draftEq (lookup "name" item) (lookup "name" fields))
      s.items with ⟨h1, _⟩ | ⟨pre, x, post, hxs, _, hx, _⟩
  · simp [addItem, getOpt, getProp, hn, hc, h1, ownProps, bind, Except.bind]
  · have := hnew x (by simp [hxs])
    simp [this] at hx

theorem addItem_existing (s : CartState) (ref : Nat) (fields : Fields) (pre post : List Entry)
    (x : Entry)
    (hn : toBoolean (lookup "name" fields) = true) (hc : toBoolean (lookup "cost" fields) = true)
    (hitems : s.items = pre ++ x :: post)
    (hx : draftEq (lookup "name" x) (lookup "name" fields) = true)
    (hpre : ∀ e ∈ pre, draftEq (lookup "name" e) (lookup "name" fields) = false) :
    addItem s (.object ref fields) =
      (addOne (jsOr (lookup "quantity" x) (.number (.fin 1)))).map
        (fun q => { items := pre ++ setField "quantity" q x :: post }) := by
  have hidx := findIndex_split Entry
    (fun item => draftEq (lookup "name" item) (lookup "name" fields)) pre post x hx hpre
  simp only [addItem, getOpt, getProp, hn, hc, hitems, hidx, bind, Except.bind]
  simp only [Int.toNat_ofNat, getElem?_split, set_split]
  cases addOne (jsOr (lookup "quantity" x) (.number (.fin 1))) <;> simp [Except.map]

theorem removeItem_invalid (s : CartState) (p : JSValue)
    (h : toBoolean (resolveName p) = false) : removeItem s p = .ok s := by
  simp only [resolveName] at h
  simp [removeItem, h]

theorem removeItem_valid (s : CartState) (p : JSValue)
    (h : toBoolean (resolveName p) = true) :
    removeItem s p =
      .ok { items := s.items.filter (fun item => !draftEq (lookup "name" item) (resolveName p)) } := by
  simp only [resolveName] at h
  simp [removeItem, resolveName, h]

theorem typeOf_number_iff (v : JSValue) : typeOf v = "number" ↔ ∃ q, v = .number q := by
  cases v <;> simp [typeOf]

theorem updateQuantity_invalid (s : CartState) (p : JSValue)
    (h : toBoolean (getOpt p "name") = false ∨ typeOf (getOpt p "quantity") ≠ "number") :
    updateQuantity s p = .ok s := by
  simp only [updateQuantity, getProp_source, bind, Except.bind]
  rcases h with h | h
  · simp [h]
  · split
    · rfl
    · split
      · rename_i q hq
        rw [hq] at h
        simp [typeOf] at h
      · rfl

theorem updateQuantity_absent (s : CartState) (p : JSValue) (q : JSNum)
    (hn : toBoolean (getOpt p "name") = true) (hq : getOpt p "quantity" = .number q)
    (habs : ∀ e ∈ s.items, draftEq (lookup "name" e) (getOpt p "name") = false) :
    updateQuantity s p =
      if toStringCompletes (getOpt p "name") then .ok s else .error .typeError := by
  have hidx := findIndex_none Entry
    (fun item => draftEq (lookup "name" item) (getOpt p "name")) s.items habs
  simp only [updateQuantity, getProp_source, bind, Except.bind, hn, hq, hidx]
  simp

theorem updateQuantity_remove (s : CartState) (p : JSValue) (q : JSNum) (pre post : List Entry)
    (x : Entry)
    (hn : toBoolean (getOpt p "name") = true) (hq : getOpt p "quantity" = .number q)
    (hle : q.le (.fin 0) = true)
    (hitems : s.items = pre ++ x :: post)
    (hx : draftEq (lookup "name" x) (getOpt p "name") = true)
    (hpre : ∀ e ∈ pre, draftEq (lookup "name" e) (getOpt p "name") = false) :
    updateQuantity s p = .ok { items := pre ++ post } := by
  have hidx := findIndex_split Entry
    (fun item => draftEq (lookup "name" item) (getOpt p "name")) pre post x hx hpre
  simp only [updateQuantity, getProp_source, bind, Except.bind, hn, hq, hitems, hidx, hle]
  simp [eraseIdx_split]

theorem updateQuantity_set (s : CartState) (p : JSValue) (q : JSNum) (pre post : List Entry)
    (x : Entry)
    (hn : toBoolean (getOpt p "name") = true) (hq : getOpt p "quantity" = .number q)
    (hle : q.le (.fin 0) = false)
    (hitems : s.items = pre ++ x :: post)
    (hx : draftEq (lookup "name" x) (getOpt p "name") = true)
    (hpre : ∀ e ∈ pre, draftEq (lookup "name" e) (getOpt p "name") = false) :
    updateQuantity s p =
      .ok { items := pre ++ setField "quantity" (.number q) x :: post } := by
  have hidx := findIndex_split Entry
    (fun item => draftEq (lookup "name" item) (getOpt p "name")) pre post x hx hpre
  simp only [updateQuantity, getProp_source, bind, Except.bind, hn, hq, hitems, hidx, hle]
  simp only [Int.toNat_ofNat, getElem?_split, set_split]
  simp

/-- The three ways `addItem` can run: rejected, appended, incremented. -/
theorem addItem_cases (s : CartState) (p : JSValue) :
    ((toBoolean (getOpt p "name") = false ∨ toBoolean (getOpt p "cost") = false) ∧
        addItem s p = .ok s) ∨
    (∃ ref fields, p = .object ref fields ∧ toBoolean (lookup "name" fields) = true ∧
        toBoolean (lookup "cost" fields) = true ∧
        (∀ e ∈ s.items, draftEq (lookup "name" e) (lookup "name" fields) = false) ∧
        addItem s p = .ok { items := s.items ++ [setField "quantity" (.number (.fin 1)) fields] }) ∨
    (∃ ref fields pre x post, p = .object ref fields ∧ toBoolean (lookup "name" fields) = true ∧
        toBoolean (lookup "cost" fields) = true ∧ s.items = pre ++ x :: post ∧
        draftEq (lookup "name" x) (lookup "name" fields) = true ∧
        (∀ e ∈ pre, draftEq (lookup "name" e) (lookup "name" fields) = false) ∧
        addItem s p = (addOne (jsOr (lookup "quantity" x) (.number (.fin 1)))).map
          (fun q => { items := pre ++ setField "quantity" q x :: post })) := by
  by_cases hn : toBoolean (getOpt p "name") = true
  · by_cases hc : toBoolean (getOpt p "cost") = true
    · obtain ⟨ref, fields, rfl⟩ := isObject_of_truthy_getOpt p "name" hn
      simp only [getOpt] at hn hc
      rcases findIndex_spec Entry
          (fun item => draftEq (lookup "name" item) (lookup "name" fields)) s.items with
        ⟨_, h2⟩ | ⟨pre, x, post, hxs, _, hx, hpre⟩
      · right; left
        exact ⟨ref, fields, rfl, hn, hc, h2, addItem_new s ref fields hn hc h2⟩
      · right; right
        exact ⟨ref, fields, pre, x, post, rfl, hn, hc, hxs, hx, hpre,
          addItem_existing s ref fields pre post x hn hc hxs hx hpre⟩
    · left
      have hc' : toBoolean (getOpt p "cost") = false := by simpa using hc
      exact ⟨Or.inr hc', addItem_invalid s p (Or.inr hc')⟩
  · left
    have hn' : toBoolean (getOpt p "name") = false := by simpa using hn
    exact ⟨Or.inl hn', addItem_invalid s p (Or.inl hn')⟩

/-- The four ways `updateQuantity` can run: rejected, name absent, removed, overwritten. -/
theorem updateQuantity_cases (s : CartState) (p : JSValue) :
    ((toBoolean (getOpt p "name") = false ∨ typeOf (getOpt p "quantity") ≠ "number") ∧
        updateQuantity s p = .ok s) ∨
    (∃ q, toBoolean (getOpt p "name") = true ∧ getOpt p "quantity" = .number q ∧
        (∀ e ∈ s.items, draftEq (lookup "name" e) (getOpt p "name") = false) ∧
        updateQuantity s p =
          if toStringCompletes (getOpt p "name") then .ok s else .error .typeError) ∨
    (∃ q pre x post, toBoolean (getOpt p "name") = true ∧ getOpt p "quantity" = .number q ∧
        q.le (.fin 0) = true ∧ s.items = pre ++ x :: post ∧
        draftEq (lookup "name" x) (getOpt p "name") = true ∧
        (∀ e ∈ pre, draftEq (lookup "name" e) (getOpt p "name") = false) ∧
        updateQuantity s p = .ok { items := pre ++ post }) ∨
    (∃ q pre x post, toBoolean (getOpt p "name") = true ∧ getOpt p "quantity" = .number q ∧
        q.le (.fin 0) = false ∧ s.items = pre ++ x :: post ∧
        draftEq (lookup "name" x) (getOpt p "name") = true ∧
        (∀ e ∈ pre, draftEq (lookup "name" e) (getOpt p "name") = false) ∧
        updateQuantity s p = .ok { items := pre ++ setField "quantity" (.number q) x :: post }) := by
  by_cases hn : toBoolean (getOpt p "name") = true
  · by_cases ht : typeOf (getOpt p "quantity") = "number"
    · obtain ⟨q, hq⟩ := (typeOf_number_iff _).mp ht
      rcases findIndex_spec Entry
          (fun item => draftEq (lookup "name" item) (getOpt p "name")) s.items with
        ⟨_, h2⟩ | ⟨pre, x, post, hxs, _, hx, hpre⟩
      · right; left
        exact ⟨q, hn, hq, h2, updateQuantity_absent s p q hn hq h2⟩
      · by_cases hle : q.le (.fin 0) = true
        · right; right; left
          exact ⟨q, pre, x, post, hn, hq, hle, hxs, hx, hpre,
            updateQuantity_remove s p q pre post x hn hq hle hxs hx hpre⟩
        · right; right; right
          have hle' : q.le (.fin 0) = false := by simpa using hle
          exact ⟨q, pre, x, post, hn, hq, hle', hxs, hx, hpre,
            updateQuantity_set s p q pre post x hn hq hle' hxs hx hpre⟩
    · left
      exact ⟨Or.inr ht, updateQuantity_invalid s p (Or.inr ht)⟩
  · left
    have hn' : toBoolean (getOpt p "name") = false := by simpa using hn
    exact ⟨Or.inl hn', updateQuantity_invalid s p (Or.inl hn')⟩

/-! ## Invariants of the quantities -/

theorem addOne_quantity (n : JSNum) (h : n.le (.fin 0) = false) :
    ∃ m, addOne (jsOr (.number n) (.number (.fin 1))) = .ok (.number m) ∧
      m.le (.fin 0) = false := by
  cases n with
  | nan =>
      refine ⟨.fin (roundDouble (1 + 1)), by simp [jsOr, toBoolean, JSNum.truthy, addOne,
        JSNum.add], ?_⟩
      simpa [JSNum.le] using roundDouble_pos (1 + 1) (by norm_num)
  | posInf => exact ⟨.posInf, by simp [jsOr, toBoolean, JSNum.truthy, addOne, JSNum.add],
      by simp [JSNum.le]⟩
  | negInf => simp [JSNum.le] at h
  | fin a =>
      have ha : 0 < a := by simpa [JSNum.le] using h
      refine ⟨.fin (roundDouble (a + 1)), ?_, ?_⟩
      · simp [jsOr, toBoolean, JSNum.truthy, addOne, JSNum.add, ne_of_gt ha]
      · simpa [JSNum.le] using roundDouble_pos (a + 1) (by linarith)

/-- A property of entries that the three writes of the reducers establish or keep is kept
by a dispatch. -/
theorem entries_dispatch (Q : Entry → Prop) (s : CartState) (a : Action)
    (hnew : ∀ fields, Q (setField "quantity" (.number (.fin 1)) fields))
    (hinc : ∀ x v, Q x → addOne (jsOr (lookup "quantity" x) (.number (.fin 1))) = .ok v →
      Q (setField "quantity" v x))
    (hset : ∀ p q x, a = .updateQuantity p → getOpt p "quantity" = .number q →
      q.le (.fin 0) = false → Q (setField "quantity" (.number q) x))
    (h : ∀ e ∈ s.items, Q e) : ∀ e ∈ (dispatch s a).items, Q e := by
  unfold dispatch
  cases hr : reducer s a with
  | error e => exact h
  | ok s' =>
      cases a with
      | addItem p =>
          simp only [reducer] at hr
          rcases addItem_cases s p with ⟨_, he⟩ | ⟨ref, fields, _, _, _, _, he⟩ |
            ⟨ref, fields, pre, x, post, _, _, _, hitems, _, _, he⟩
          · rw [he] at hr
            cases hr
            exact h
          · rw [he] at hr
            cases hr
            intro e he'
            rcases List.mem_append.mp he' with he' | he'
            · exact h e he'
            · rw [List.mem_singleton] at he'
              subst he'
              exact hnew fields
          · rw [he] at hr
            cases hv : addOne (jsOr (lookup "quantity" x) (.number (.fin 1))) with
            | error err => rw [hv] at hr; cases hr
            | ok v =>
                rw [hv] at hr
                simp only [Except.map] at hr
                cases hr
                rw [hitems] at h
                intro e he'
                rcases List.mem_append.mp he' with he' | he'
                · exact h e (by simp [he'])
                · rcases List.mem_cons.mp he' with he' | he'
                  · subst he'
                    exact hinc x v (h x (by simp)) hv
                  · exact h e (by simp [he'])
      | removeItem p =>
          simp only [reducer] at hr
          by_cases hn : toBoolean (resolveName p) = true
          · rw [removeItem_valid s p hn] at hr
            cases hr
            intro e he
            exact h e (List.mem_filter.mp he).1
          · have hn' : toBoolean (resolveName p) = false := by simpa using hn
            rw [removeItem_invalid s p hn'] at hr
            cases hr
            exact h
      | updateQuantity p =>
          simp only [reducer] at hr
          rcases updateQuantity_cases s p with ⟨_, he⟩ | ⟨q, _, _, _, he⟩ |
            ⟨q, pre, x, post, _, _, _, hitems, _, _, he⟩ |
            ⟨q, pre, x, post, _, hq, hle, hitems, _, _, he⟩
          · rw [he] at hr
            cases hr
            exact h
          · rw [he] at hr
            split at hr
            · cases hr
              exact h
            · cases hr
          · rw [he] at hr
            cases hr
            rw [hitems] at h
            intro e he'
            rcases List.mem_append.mp he' with he' | he'
            · exact h e (by simp [he'])
            · exact h e (by simp [he'])
          · rw [he] at hr
            cases hr
            rw [hitems] at h
            intro e he'
            rcases List.mem_append.mp he' with he' | he'
            · exact h e (by simp [he'])
            · rcases List.mem_cons.mp he' with he' | he'
              · subst he'
                exact hset p q x rfl hq hle
              · exact h e (by simp [he'])

theorem posInt_of_integer (q : JSNum) (hint : q.isInteger = true) (hle : q.le (.fin 0) = false) :
    ∃ k : Nat, 1 ≤ k ∧ q = .fin (k : ℚ) := by
  cases q with
  | fin a =>
      have hden : a.den = 1 := by simpa [JSNum.isInteger] using hint
      have hpos : 0 < a := by simpa [JSNum.le] using hle
      have hnum : 0 < a.num := Rat.num_pos.mpr hpos
      refine ⟨a.num.toNat, by omega, ?_⟩
      congr 1
      have h1 : ((a.num.toNat : Int) : ℚ) = (a.num : ℚ) := by
        rw [Int.toNat_of_nonneg (le_of_lt hnum)]
      have h2 : (a.num : ℚ) = a := by
        have := Rat.num_div_den a
        rw [hden] at this
        simpa using this
      rw [← h2]
      exact_mod_cast h1.symm
  | _ => simp [JSNum.isInteger] at hint

theorem quantityPosInt_dispatch (s : CartState) (a : Action)
    (ha : ∀ p q, a = .updateQuantity p → getOpt p "quantity" = .number q → q.isInteger = true)
    (h : ∀ e ∈ s.items, QuantityPosInt e) : ∀ e ∈ (dispatch s a).items, QuantityPosInt e := by
  apply entries_dispatch QuantityPosInt s a _ _ _ h
  · intro fields
    exact ⟨1, le_refl 1, by simp [lookup_setField_same]⟩
  · intro x v ⟨k, hk, hq⟩ hv
    have hk0 : (k : ℚ) ≠ 0 := by
      have : 0 < k := hk
      exact_mod_cast (Nat.pos_iff_ne_zero.mp this)
    obtain ⟨k', hk', hround⟩ := roundDouble_natCast (k + 1) (by omega)
    rw [hq] at hv
    simp [jsOr, toBoolean, JSNum.truthy, hk0, addOne, JSNum.add] at hv
    subst hv
    refine ⟨k', hk', ?_⟩
    rw [lookup_setField_same, ← hround]
    push_cast
    rfl
  · intro p q x hp hq hle
    obtain ⟨k, hk, rfl⟩ := posInt_of_integer q (ha p q hp hq) hle
    exact ⟨k, hk, lookup_setField_same _ _ _⟩

theorem quantityPosInt_foldl (actions : List Action) (s : CartState)
    (ha : ∀ p q, Action.updateQuantity p ∈ actions → getOpt p "quantity" = .number q →
      q.isInteger = true)
    (h : ∀ e ∈ s.items, QuantityPosInt e) :
    ∀ e ∈ (actions.foldl dispatch s).items, QuantityPosInt e := by
  induction actions generalizing s with
  | nil => exact h
  | cons a rest ih =>
      apply ih (dispatch s a)
      · intro p q hp
        exact ha p q (List.mem_cons_of_mem a hp)
      · apply quantityPosInt_dispatch s a _ h
        intro p q hp
        subst hp
        exact ha p q (List.mem_cons_self _ _)

theorem foldl_dispatch_invariant (P : CartState → Prop)
    (hstep : ∀ s a, P s → P (dispatch s a)) (actions : List Action) (s : CartState) (h : P s) :
    P (actions.foldl dispatch s) := by
  induction actions generalizing s with
  | nil => exact h
  | cons a rest ih => exact ih (dispatch s a) (hstep s a h)

theorem quantityOk_dispatch (s : CartState) (a : Action)
    (h : ∀ e ∈ s.items, QuantityOk e) : ∀ e ∈ (dispatch s a).items, QuantityOk e := by
  apply entries_dispatch QuantityOk s a _ _ _ h
  · intro fields
    exact ⟨.fin 1, lookup_setField_same _ _ _, by simp [JSNum.le]⟩
  · intro x v ⟨n, hq, hle⟩ hv
    obtain ⟨m, hm, hmle⟩ := addOne_quantity n hle
    rw [hq, hm] at hv
    cases hv
    exact ⟨m, lookup_setField_same _ _ _, hmle⟩
  · intro p q x _ _ hle
    exact ⟨q, lookup_setField_same _ _ _, hle⟩

theorem quantityOk_dispatchAll (actions : List Action) :
    ∀ e ∈ (dispatchAll actions).items, QuantityOk e := by
  apply foldl_dispatch_invariant (fun s => ∀ e ∈ s.items, QuantityOk e) quantityOk_dispatch
  simp [initialState]

/-! ## Claims -/

theorem not_namesUnique_pair (e : Entry)
    (h : strictEq (lookup "name" e) (lookup "name" e) = true) : ¬ NamesUnique [e, e] := by
  intro hu
  unfold NamesUnique at hu
  have := (List.pairwise_cons.mp hu).1 e (by simp)
  rw [h] at this
  cases this

theorem dispatchAll_recordNamed_twice :
    (dispatchAll [.addItem recordNamed, .addItem recordNamed]).items =
      [recordEntry (.fin 1), recordEntry (.fin 1)] := by
  simp [dispatchAll, dispatch, reducer, initialState, recordNamed, recordName, recordEntry,
    addItem, getOpt, getProp, lookup, toBoolean, JSNum.truthy, findIndex, draftEq, ownProps,
    setField, bind, Except.bind]

/-- C1, at the failing input: dispatching `addItem({name: n, cost: 5})` twice from the empty
cart, with `n` a record, leaves two entries whose names are the same record, so names are not
unique in a reachable state. The comparison at line 25 reads the stored name through the
draft and does not find the plant that is already present. -/
theorem C1_record_name_added_twice :
    (dispatchAll [.addItem recordNamed, .addItem recordNamed]).items =
        [recordEntry (.fin 1), recordEntry (.fin 1)] ∧
      strictEq (lookup "name" (recordEntry (.fin 1))) (lookup "name" (recordEntry (.fin 1))) =
        true ∧
      ¬ NamesUnique (dispatchAll [.addItem recordNamed, .addItem recordNamed]).items := by
  have hname : strictEq (lookup "name" (recordEntry (.fin 1)))
      (lookup "name" (recordEntry (.fin 1))) = true := by
    simp [recordEntry, recordName, lookup, strictEq]
  refine ⟨dispatchAll_recordNamed_twice, hname, ?_⟩
  rw [dispatchAll_recordNamed_twice]
  exact not_namesUnique_pair _ hname

/-- C2 fails as stated: after `addItem({name: "Fern", cost: 5})` and
`updateQuantity({name: "Fern", quantity: 0.5})` the cart holds Fern at quantity `0.5`, which
is not an integer that is at least 1. -/
theorem C2_counterexample_fractional_quantity :
    (dispatchAll [.addItem fern, .updateQuantity (fernQuantity (.fin (1 / 2)))]).items =
        [[("name", .string "Fern"), ("cost", .number (.fin 5)),
          ("quantity", .number (.fin (1 / 2)))]] ∧
      ¬ QuantityPosInt [("name", .string "Fern"), ("cost", .number (.fin 5)),
          ("quantity", .number (.fin (1 / 2)))] := by
  constructor
  · simp [dispatchAll, dispatch, reducer, initialState, fern, fernQuantity, addItem,
      updateQuantity, getOpt, getProp, lookup, jsOr, toBoolean, JSNum.truthy, JSNum.le, findIndex,
      strictEq, draftEq, ownProps, setField, bind, Except.bind]
    norm_num
  · rintro ⟨k, hk, hq⟩
    simp [lookup] at hq
    have h1 : (1 : ℚ) ≤ (k : ℚ) := by exact_mod_cast hk
    rw [← hq] at h1
    norm_num at h1

/-- C2, amended: in every reachable cart state every entry's quantity is a number for which
`<= 0` is false (so no entry is retained at zero or below); and when every numeric quantity
carried by an `updateQuantity` dispatch is an integer, every entry's quantity is an integer
that is at least 1. -/
theorem C2_quantity_invariant (actions : List Action) :
    (∀ e ∈ (dispatchAll actions).items, QuantityOk e) ∧
      (IntegerUpdates actions → ∀ e ∈ (dispatchAll actions).items, QuantityPosInt e) := by
  refine ⟨quantityOk_dispatchAll actions, ?_⟩
  intro hint
  exact quantityPosInt_foldl actions initialState hint (by simp [initialState])

theorem C2_quantity_invariant_witness :
    IntegerUpdates [.addItem fern, .updateQuantity (fernQuantity (.fin 3))] ∧
      ∀ e ∈ (dispatchAll [.addItem fern, .updateQuantity (fernQuantity (.fin 3))]).items,
        QuantityPosInt e := by
  have h : IntegerUpdates [.addItem fern, .updateQuantity (fernQuantity (.fin 3))] := by
    intro p q hp hq
    simp at hp
    subst hp
    simp [fernQuantity, getOpt, lookup] at hq
    subst hq
    simp [JSNum.isInteger]
  exact ⟨h, (C2_quantity_invariant [.addItem fern, .updateQuantity (fernQuantity (.fin 3))]).2 h⟩

/-- C3, at the failing input: on the empty cart, `updateQuantity({name: Symbol(),
quantity: 1})` passes validation, finds no entry, and raises a `TypeError` when the template
literal of the not-found diagnostic (line 75) converts the symbol to a string. -/
theorem C3_symbol_name_raises :
    updateQuantity (dispatchAll []) symbolNamed = .error .typeError := by
  simp [dispatchAll, initialState, symbolNamed, updateQuantity, getProp, lookup, jsOr, toBoolean,
    findIndex, toStringCompletes, bind, Except.bind]

/-- C4: for every cart state and every payload whose `name` is absent or falsy, or whose
`cost` is absent or falsy (an absent payload has neither), `addItem` leaves the sequence
exactly unchanged. -/
theorem C4_addItem_rejects_invalid (s : CartState) (p : JSValue)
    (h : toBoolean (getOpt p "name") = false ∨ toBoolean (getOpt p "cost") = false) :
    addItem s p = .ok s :=
  addItem_invalid s p h

theorem C4_addItem_rejects_invalid_witness :
    addItem { items := [[("name", .string "Oak"), ("cost", .number (.fin 7)),
        ("quantity", .number (.fin 1))]] } (.object 4 [("name", .string "Fern")]) =
      .ok { items := [[("name", .string "Oak"), ("cost", .number (.fin 7)),
        ("quantity", .number (.fin 1))]] } :=
  C4_addItem_rejects_invalid _ _ (Or.inr (by simp [getOpt, lookup, toBoolean]))

theorem hasOwn_setField (k k' : String) (v : JSValue) (f : Fields) :
    hasOwn k' (setField k v f) = (decide (k' = k) || hasOwn k' f) := by
  induction f with
  | nil =>
      by_cases h : k = k'
      · simp [setField, hasOwn, h]
      · simp [setField, hasOwn, h, Ne.symm h]
  | cons kv rest ih =>
      obtain ⟨k₀, v₀⟩ := kv
      by_cases h : k₀ = k
      · subst h
        by_cases h' : k₀ = k'
        · simp [setField, hasOwn, h']
        · simp [setField, hasOwn, h', Ne.symm h']
      · by_cases h' : k₀ = k'
        · subst h'
          simp [setField, hasOwn, h]
        · simp [setField, hasOwn, h, h', ih]

/-- C5: for every cart state and every valid item (truthy `name` and `cost`) whose name
equals no existing entry's name, `addItem` returns the original sequence followed by exactly
one new last entry, which has quantity 1 (whatever quantity the input carried), every other
field of the input verbatim, and no further field. -/
theorem C5_addItem_appends_new (s : CartState) (p : JSValue)
    (hn : toBoolean (getOpt p "name") = true) (hc : toBoolean (getOpt p "cost") = true)
    (hnew : ∀ e ∈ s.items, strictEq (lookup "name" e) (getOpt p "name") = false) :
    ∃ entry, addItem s p = .ok { items := s.items ++ [entry] } ∧
      lookup "quantity" entry = .number (.fin 1) ∧
      (∀ k, k ≠ "quantity" → lookup k entry = getOpt p k) ∧
      (∀ k, hasOwn k entry = (decide (k = "quantity") || hasOwn k (ownProps p))) := by
  obtain ⟨ref, fields, rfl⟩ := isObject_of_truthy_getOpt p "name" hn
  simp only [getOpt] at hn hc hnew
  refine ⟨setField "quantity" (.number (.fin 1)) fields,
    addItem_new s ref fields hn hc (fun e he => draftEq_false_of_strictEq _ _ (hnew e he)),
    lookup_setField_same _ _ _, ?_, ?_⟩
  · intro k hk
    simpa [getOpt] using lookup_setField_other "quantity" k _ fields hk
  · intro k
    simpa [ownProps] using hasOwn_setField "quantity" k _ fields

theorem C5_addItem_appends_new_witness :
    ∃ entry, addItem { items := [oakEntry] }
        (.object 5 [("name", .string "Fern"), ("quantity", .number (.fin 9)),
          ("cost", .number (.fin 5))]) = .ok { items := [oakEntry] ++ [entry] } ∧
      lookup "quantity" entry = .number (.fin 1) ∧
      (∀ k, k ≠ "quantity" → lookup k entry =
        getOpt (.object 5 [("name", .string "Fern"), ("quantity", .number (.fin 9)),
          ("cost", .number (.fin 5))]) k) ∧
      (∀ k, hasOwn k entry = (decide (k = "quantity") ||
        hasOwn k (ownProps (.object 5 [("name", .string "Fern"),
          ("quantity", .number (.fin 9)), ("cost", .number (.fin 5))])))) :=
  C5_addItem_appends_new _ _ (by simp [getOpt, lookup, toBoolean])
    (by simp [getOpt, lookup, toBoolean, JSNum.truthy])
    (by simp [oakEntry, getOpt, lookup, strictEq])

/-- C6, at the failing input: the reachable cart holding Fern at quantity `NaN` (set by
`updateQuantity`) is taken by `addItem` to quantity 2, not to `NaN + 1`: `(quantity || 1) + 1`
at line 28 defaults on every falsy quantity, where the comment at line 27 defaults on
`undefined` only. -/
theorem C6_nan_quantity_becomes_two :
    (dispatchAll [.addItem fern, .updateQuantity (fernQuantity .nan)]).items = [fernEntry .nan] ∧
      addItem { items := [fernEntry .nan] } fern = .ok { items := [fernEntry (.fin 2)] } ∧
      JSNum.fin 2 ≠ JSNum.add .nan (.fin 1) := by
  refine ⟨?_, ?_, ?_⟩
  · simp [dispatchAll, dispatch, reducer, initialState, fern, fernQuantity, fernEntry, addItem,
      updateQuantity, getOpt, getProp, lookup, jsOr, toBoolean, JSNum.truthy, JSNum.le, findIndex,
      strictEq, draftEq, ownProps, setField, bind, Except.bind]
  · simp [fern, fernEntry, addItem, getOpt, getProp, lookup, jsOr, toBoolean, JSNum.truthy,
      findIndex, strictEq, draftEq, addOne, JSNum.add, setField, bind, Except.bind,
      roundDouble_one_add_one]
  · simp [JSNum.add]

theorem JSNum.eq_both (a b n : JSNum) (ha : JSNum.eq a n = true) (hb : JSNum.eq b n = true) :
    JSNum.eq a b = true := by
  cases a <;> cases n <;> cases b <;> simp_all [JSNum.eq]

theorem strictEq_both (a b n : JSValue) (ha : strictEq a n = true) (hb : strictEq b n = true) :
    strictEq a b = true := by
  cases a <;> cases n <;> simp [strictEq] at ha <;> cases b <;> simp [strictEq] at hb ⊢
  · exact ha.trans hb.symm
  · exact JSNum.eq_both _ _ _ ha hb
  · exact ha.trans hb.symm
  · exact ha.trans hb.symm
  · exact ha.trans hb.symm

theorem filter_eq_self_of_all {α : Type} (f : α → Bool) (l : List α) (h : ∀ a ∈ l, f a = true) :
    l.filter f = l :=
  List.filter_eq_self.mpr h

/-- In a sequence with unique names split at an entry named `n`, removing every entry named
`n` removes exactly that entry. -/
theorem filter_split_unique (pre post : List Entry) (x : Entry) (n : JSValue)
    (hu : NamesUnique (pre ++ x :: post))
    (hx : strictEq (lookup "name" x) n = true)
    (hpre : ∀ e ∈ pre, strictEq (lookup "name" e) n = false) :
    (pre ++ x :: post).filter (fun e => !strictEq (lookup "name" e) n) = pre ++ post := by
  have hpost : ∀ e ∈ post, strictEq (lookup "name" e) n = false := by
    intro e he
    by_contra hne
    have hne' : strictEq (lookup "name" e) n = true := by simpa using hne
    have hxe := strictEq_both _ _ _ hx hne'
    unfold NamesUnique at hu
    rw [List.pairwise_append] at hu
    have := (List.pairwise_cons.mp hu.2.1).1 e he
    rw [hxe] at this
    cases this
  rw [List.filter_append, List.filter_cons]
  simp only [hx, Bool.not_true, Bool.false_eq_true, if_false]
  rw [filter_eq_self_of_all _ pre (by intro a ha; simp [hpre a ha]),
    filter_eq_self_of_all _ post (by intro a ha; simp [hpost a ha])]

theorem JSNum.le_of_gt (q : JSNum) (h : q.gt (.fin 0) = true) : q.le (.fin 0) = false := by
  cases q with
  | fin a =>
      have : 0 < a := by simpa [JSNum.gt] using h
      simpa [JSNum.le] using this
  | _ => simp_all [JSNum.gt, JSNum.le]

theorem draftEq_filter_pred (v : JSValue) (hv : isRecord v = false) :
    (fun item : Entry => !draftEq (lookup "name" item) v) =
      (fun item : Entry => !strictEq (lookup "name" item) v) := by
  funext item
  rw [draftEq_of_not_record _ v hv]

/-- C7: for every cart state and every payload that resolves to a non-empty name `n` (the
payload itself when it is a string, otherwise its `name` field; any truthy value that is not
a record), `removeItem` returns exactly the entries whose name is not `n`, unchanged and in
their original relative order; a bare string and a record whose `name` is that string give
the same result. -/
theorem C7_removeItem_stable_filter (s : CartState) (p : JSValue)
    (h : toBoolean (resolveName p) = true) (hprim : isRecord (resolveName p) = false) :
    removeItem s p =
        .ok { items := s.items.filter (fun e => !strictEq (lookup "name" e) (resolveName p)) } ∧
      (s.items.filter (fun e => !strictEq (lookup "name" e) (resolveName p))).Sublist s.items ∧
      (∀ (n : String) (ref : Nat) (fields : Fields), lookup "name" fields = .string n →
        removeItem s (.object ref fields) = removeItem s (.string n)) := by
  refine ⟨?_, List.filter_sublist _, ?_⟩
  · rw [removeItem_valid s p h, draftEq_filter_pred _ hprim]
  · intro n ref fields hname
    simp [removeItem, typeOf, getOpt, hname]

theorem C7_removeItem_stable_filter_witness :
    removeItem { items := [plainEntry "A", plainEntry "B", plainEntry "C"] } (.string "B") =
      .ok { items := [plainEntry "A", plainEntry "C"] } :=
  (C7_removeItem_stable_filter { items := [plainEntry "A", plainEntry "B", plainEntry "C"] }
    (.string "B") (by simp [resolveName, typeOf, toBoolean])
    (by simp [resolveName, typeOf, isRecord])).1.trans
    (by simp [resolveName, typeOf, plainEntry, lookup, strictEq])

/-- C8: for every cart state containing an entry named `n` (a name in the sense of the
specification: any truthy value that is not a record, in particular every non-empty string)
and every numeric quantity `q > 0`, `updateQuantity({name: n, quantity: q})` sets the
quantity of that entry (the first of that name) to exactly `q`, keeps the length and the
order of the sequence, and leaves every other entry and every other field of that entry
unchanged. -/
theorem C8_updateQuantity_sets_positive (s : CartState) (p : JSValue) (q : JSNum)
    (hn : toBoolean (getOpt p "name") = true) (hprim : isRecord (getOpt p "name") = false)
    (hq : getOpt p "quantity" = .number q) (hpos : q.gt (.fin 0) = true)
    (hex : ∃ e ∈ s.items, strictEq (lookup "name" e) (getOpt p "name") = true) :
    ∃ pre x post, s.items = pre ++ x :: post ∧
      strictEq (lookup "name" x) (getOpt p "name") = true ∧
      (∀ e ∈ pre, strictEq (lookup "name" e) (getOpt p "name") = false) ∧
      updateQuantity s p =
        .ok { items := pre ++ setField "quantity" (.number q) x :: post } ∧
      lookup "quantity" (setField "quantity" (.number q) x) = .number q ∧
      (∀ k, k ≠ "quantity" → lookup k (setField "quantity" (.number q) x) = lookup k x) ∧
      (pre ++ setField "quantity" (.number q) x :: post).length = s.items.length := by
  rcases findIndex_spec Entry
      (fun item => strictEq (lookup "name" item) (getOpt p "name")) s.items with
    ⟨_, h2⟩ | ⟨pre, x, post, hxs, _, hx, hpre⟩
  · obtain ⟨e, he, hm⟩ := hex
    rw [h2 e he] at hm
    cases hm
  · refine ⟨pre, x, post, hxs, hx, hpre,
      updateQuantity_set s p q pre post x hn hq (JSNum.le_of_gt q hpos) hxs
        (by rw [draftEq_of_not_record _ _ hprim]; exact hx)
        (fun e he => by rw [draftEq_of_not_record _ _ hprim]; exact hpre e he),
      lookup_setField_same _ _ _, ?_, by simp [hxs]⟩
    intro k hk
    exact lookup_setField_other "quantity" k _ x hk

theorem C8_updateQuantity_sets_positive_witness :
    ∃ pre x post, [oakEntry, fernEntry (.fin 1)] = pre ++ x :: post ∧
      strictEq (lookup "name" x) (getOpt (fernQuantity (.fin 3)) "name") = true ∧
      (∀ e ∈ pre, strictEq (lookup "name" e) (getOpt (fernQuantity (.fin 3)) "name") = false) ∧
      updateQuantity { items := [oakEntry, fernEntry (.fin 1)] } (fernQuantity (.fin 3)) =
        .ok { items := pre ++ setField "quantity" (.number (.fin 3)) x :: post } ∧
      lookup "quantity" (setField "quantity" (.number (.fin 3)) x) = .number (.fin 3) ∧
      (∀ k, k ≠ "quantity" →
        lookup k (setField "quantity" (.number (.fin 3)) x) = lookup k x) ∧
      (pre ++ setField "quantity" (.number (.fin 3)) x :: post).length =
        [oakEntry, fernEntry (.fin 1)].length :=
  C8_updateQuantity_sets_positive { items := [oakEntry, fernEntry (.fin 1)] }
    (fernQuantity (.fin 3)) (.fin 3)
    (by simp [fernQuantity, getOpt, lookup, toBoolean])
    (by simp [fernQuantity, getOpt, lookup, isRecord])
    (by simp [fernQuantity, getOpt, lookup])
    (by simp [JSNum.gt])
    ⟨fernEntry (.fin 1), by simp, by simp [fernQuantity, fernEntry, getOpt, lookup, strictEq]⟩

/-- C9: for every cart state with unique names containing an entry named `n` (a name in the
sense of the specification: any truthy value that is not a record, in particular every
non-empty string) and every numeric quantity `q <= 0`, `updateQuantity({name: n,
quantity: q})` returns a sequence with no entry named `n`, one entry shorter, whose entries
are the remaining ones, unchanged and in their original relative order. -/
theorem C9_updateQuantity_removes_nonpositive (s : CartState) (p : JSValue) (q : JSNum)
    (hn : toBoolean (getOpt p "name") = true) (hprim : isRecord (getOpt p "name") = false)
    (hq : getOpt p "quantity" = .number q)
    (hle : q.le (.fin 0) = true) (hu : NamesUnique s.items)
    (hex : ∃ e ∈ s.items, strictEq (lookup "name" e) (getOpt p "name") = true) :
    ∃ s', updateQuantity s p = .ok s' ∧
      s'.items = s.items.filter (fun e => !strictEq (lookup "name" e) (getOpt p "name")) ∧
      (∀ e ∈ s'.items, strictEq (lookup "name" e) (getOpt p "name") = false) ∧
      s'.items.length + 1 = s.items.length ∧
      s'.items.Sublist s.items := by
  rcases findIndex_spec Entry
      (fun item => strictEq (lookup "name" item) (getOpt p "name")) s.items with
    ⟨_, h2⟩ | ⟨pre, x, post, hxs, _, hx, hpre⟩
  · obtain ⟨e, he, hm⟩ := hex
    rw [h2 e he] at hm
    cases hm
  · rw [hxs] at hu
    have hfilter := filter_split_unique pre post x (getOpt p "name") hu hx hpre
    refine ⟨{ items := pre ++ post },
      updateQuantity_remove s p q pre post x hn hq hle hxs
        (by rw [draftEq_of_not_record _ _ hprim]; exact hx)
        (fun e he => by rw [draftEq_of_not_record _ _ hprim]; exact hpre e he), ?_, ?_, ?_, ?_⟩
    · rw [hxs, hfilter]
    · intro e he
      have he' : e ∈ (pre ++ x :: post).filter
          (fun e => !strictEq (lookup "name" e) (getOpt p "name")) := by
        rw [hfilter]; exact he
      simpa using (List.mem_filter.mp he').2
    · simp [hxs]
      omega
    · rw [hxs]
      exact List.Sublist.append (List.Sublist.refl pre) (List.sublist_cons_self x post)

theorem C9_updateQuantity_removes_nonpositive_witness :
    ∃ s', updateQuantity { items := [oakEntry, fernEntry (.fin 1)] } (fernQuantity (.fin 0)) =
        .ok s' ∧
      s'.items = [oakEntry, fernEntry (.fin 1)].filter
        (fun e => !strictEq (lookup "name" e) (getOpt (fernQuantity (.fin 0)) "name")) ∧
      (∀ e ∈ s'.items,
        strictEq (lookup "name" e) (getOpt (fernQuantity (.fin 0)) "name") = false) ∧
      s'.items.length + 1 = [oakEntry, fernEntry (.fin 1)].length ∧
      s'.items.Sublist [oakEntry, fernEntry (.fin 1)] :=
  C9_updateQuantity_removes_nonpositive { items := [oakEntry, fernEntry (.fin 1)] }
    (fernQuantity (.fin 0)) (.fin 0)
    (by simp [fernQuantity, getOpt, lookup, toBoolean])
    (by simp [fernQuantity, getOpt, lookup, isRecord])
    (by simp [fernQuantity, getOpt, lookup])
    (by simp [JSNum.le])
    (by simp [NamesUnique, oakEntry, fernEntry, lookup, strictEq])
    ⟨fernEntry (.fin 1), by simp, by simp [fernQuantity, fernEntry, getOpt, lookup, strictEq]⟩

/-- C10: for every cart state and every payload that is absent, has a missing or falsy
`name`, or has a `quantity` that is not of numeric type (a numeric string, `undefined`,
`null`), `updateQuantity` leaves the sequence exactly unchanged, even when an entry with the
given name exists. -/
theorem C10_updateQuantity_rejects_invalid (s : CartState) (p : JSValue)
    (h : toBoolean (getOpt p "name") = false ∨ typeOf (getOpt p "quantity") ≠ "number") :
    updateQuantity s p = .ok s :=
  updateQuantity_invalid s p h

theorem C10_updateQuantity_rejects_invalid_witness :
    updateQuantity { items := [fernEntry (.fin 1)] }
        (.object 6 [("name", .string "Fern"), ("quantity", .string "3")]) =
      .ok { items := [fernEntry (.fin 1)] } :=
  C10_updateQuantity_rejects_invalid _ _ (Or.inr (by simp [getOpt, lookup, typeOf]))

/-! ## Absent names and removal -/

theorem cartState_eta (s : CartState) : ({ items := s.items } : CartState) = s := by
  cases s
  rfl

/-- C11: for every cart state, every non-empty name `n` that matches no entry and every
numeric quantity `q` (positive, zero or negative), `updateQuantity({name: n, quantity: q})`
leaves the sequence exactly unchanged; in particular it creates no entry. -/
theorem C11_updateQuantity_absent_noop (s : CartState) (p : JSValue) (n : String) (q : JSNum)
    (hname : getOpt p "name" = .string n) (hne : n ≠ "")
    (hq : getOpt p "quantity" = .number q)
    (habs : ∀ e ∈ s.items, strictEq (lookup "name" e) (.string n) = false) :
    updateQuantity s p = .ok s := by
  have hn : toBoolean (getOpt p "name") = true := by simp [hname, toBoolean, hne]
  rw [updateQuantity_absent s p q hn hq
    (fun e he => draftEq_false_of_strictEq _ _ (by rw [hname]; exact habs e he)), hname]
  simp [toStringCompletes]

theorem C11_updateQuantity_absent_noop_witness :
    updateQuantity { items := [fernEntry (.fin 1)] }
        (.object 8 [("name", .string "Ghost"), ("quantity", .number (.fin 2))]) =
      .ok { items := [fernEntry (.fin 1)] } :=
  C11_updateQuantity_absent_noop { items := [fernEntry (.fin 1)] }
    (.object 8 [("name", .string "Ghost"), ("quantity", .number (.fin 2))]) "Ghost" (.fin 2)
    (by simp [getOpt, lookup]) (by decide) (by simp [getOpt, lookup])
    (by simp [fernEntry, lookup, strictEq])

/-- C12, at the failing input: on the reachable cart holding one entry whose name is the
record `n` (names are unique in it), `removeItem({name: n, ...})` resolves to `n`, which is
the name of that entry, and yet returns the cart with its length unchanged: the filter at
line 49 reads the stored name through the draft and keeps the entry. -/
theorem C12_record_name_not_removed :
    (dispatchAll [.addItem recordNamed]).items = [recordEntry (.fin 1)] ∧
      NamesUnique [recordEntry (.fin 1)] ∧
      toBoolean (resolveName recordNamed) = true ∧
      strictEq (lookup "name" (recordEntry (.fin 1))) (resolveName recordNamed) = true ∧
      removeItem { items := [recordEntry (.fin 1)] } recordNamed =
        .ok { items := [recordEntry (.fin 1)] } := by
  refine ⟨?_, ?_, ?_, ?_, ?_⟩
  · simp [dispatchAll, dispatch, reducer, initialState, recordNamed, recordName, recordEntry,
      addItem, getOpt, getProp, lookup, toBoolean, JSNum.truthy, findIndex, ownProps, setField,
      bind, Except.bind]
  · simp [NamesUnique]
  · simp [resolveName, recordNamed, recordName, typeOf, getOpt, lookup, toBoolean]
  · simp [resolveName, recordNamed, recordName, recordEntry, typeOf, getOpt, lookup, strictEq]
  · simp [removeItem, recordNamed, recordName, recordEntry, typeOf, getOpt, lookup, toBoolean,
      draftEq]

/-- C13: for every cart state `s` and every payload `p`, applying `removeItem` with `p`
twice yields the same sequence as applying it once: the first call returns a state, and the
second call on that state returns it again. -/
theorem C13_removeItem_idempotent (s : CartState) (p : JSValue) :
    (removeItem s p >>= fun s' => removeItem s' p) = removeItem s p ∧
      ∃ s', removeItem s p = .ok s' ∧ removeItem s' p = .ok s' := by
  by_cases hn : toBoolean (resolveName p) = true
  · have h1 := removeItem_valid s p hn
    have h3 : ∀ l : List Entry,
        removeItem ⟨List.filter (fun e => !draftEq (lookup "name" e) (resolveName p)) l⟩ p =
          .ok ⟨List.filter (fun e => !draftEq (lookup "name" e) (resolveName p)) l⟩ := by
      intro l
      rw [removeItem_valid _ p hn]
      simp [List.filter_filter]
    refine ⟨?_, _, h1, h3 s.items⟩
    rw [h1]
    exact h3 s.items
  · have hn' : toBoolean (resolveName p) = false := by simpa using hn
    have h1 := removeItem_invalid s p hn'
    refine ⟨?_, s, h1, h1⟩
    rw [h1]
    exact h1

/-- C14: for every cart state and every non-empty (truthy) name `n` that matches no entry,
`removeItem` with a payload resolving to `n` returns the sequence with the same length and
identical contents in the same order. -/
theorem C14_removeItem_absent_unchanged (s : CartState) (p : JSValue)
    (hn : toBoolean (resolveName p) = true)
    (habs : ∀ e ∈ s.items, strictEq (lookup "name" e) (resolveName p) = false) :
    removeItem s p = .ok s := by
  rw [removeItem_valid s p hn,
    filter_eq_self_of_all _ s.items
      (by intro a ha; simp [draftEq_false_of_strictEq _ _ (habs a ha)]), cartState_eta]

theorem C14_removeItem_absent_unchanged_witness :
    removeItem { items := [oakEntry, fernEntry (.fin 2)] } (.string "Missing") =
      .ok { items := [oakEntry, fernEntry (.fin 2)] } :=
  C14_removeItem_absent_unchanged { items := [oakEntry, fernEntry (.fin 2)] } (.string "Missing")
    (by simp [resolveName, typeOf, toBoolean])
    (by simp [resolveName, typeOf, oakEntry, fernEntry, lookup, strictEq])

/-- C15: for every cart state and every payload that yields no non-empty name, `removeItem`
leaves the sequence exactly unchanged; the payloads that yield none are `undefined`, `null`,
the empty string, every non-string primitive, and every record whose `name` is absent or
falsy. -/
theorem C15_removeItem_rejects_unresolvable (s : CartState) (p : JSValue)
    (h : toBoolean (resolveName p) = false) :
    removeItem s p = .ok s ∧
      (∀ q : JSValue, toBoolean (resolveName q) = false ↔
        match q with
        | .string str => str = ""
        | .object _ fields => toBoolean (lookup "name" fields) = false
        | _ => True) := by
  refine ⟨removeItem_invalid s p h, ?_⟩
  intro q
  cases q <;> simp [resolveName, typeOf, getOpt, toBoolean]

theorem C15_removeItem_rejects_unresolvable_witness :
    removeItem { items := [fernEntry (.fin 1)] } (.object 9 [("cost", .number (.fin 5))]) =
      .ok { items := [fernEntry (.fin 1)] } :=
  (C15_removeItem_rejects_unresolvable { items := [fernEntry (.fin 1)] }
    (.object 9 [("cost", .number (.fin 5))])
    (by simp [resolveName, typeOf, getOpt, lookup, toBoolean])).1

/-! ## Adding items -/

/-- C16, at the failing input: on the cart holding one entry whose name is the record `n`
(names are unique in it), `addItem({name: n, cost: 5})` returns a cart with two entries of
that name instead of one: the comparison at line 25 reads the stored name through the draft
and does not find the entry, so a second one is pushed. -/
theorem C16_record_name_present_twice :
    NamesUnique [recordEntry (.fin 1)] ∧
      addItem { items := [recordEntry (.fin 1)] } recordNamed =
        .ok { items := [recordEntry (.fin 1), recordEntry (.fin 1)] } ∧
      countNamed (getOpt recordNamed "name") [recordEntry (.fin 1), recordEntry (.fin 1)] = 2 := by
  refine ⟨?_, ?_, ?_⟩
  · simp [NamesUnique]
  · simp [recordNamed, recordName, recordEntry, addItem, getOpt, getProp, lookup, toBoolean,
      JSNum.truthy, findIndex, draftEq, ownProps, setField, bind, Except.bind]
  · simp [countNamed, recordNamed, recordName, recordEntry, getOpt, lookup, strictEq]

/-- C17: for all valid items A and B with distinct names, `addItem(A)` followed by
`addItem(B)` on the empty cart returns a sequence of length exactly 2 whose first entry is
the fields of A with quantity 1 and whose second entry is the fields of B with quantity 1. -/
theorem C17_insertion_order (a b : JSValue)
    (han : toBoolean (getOpt a "name") = true) (hac : toBoolean (getOpt a "cost") = true)
    (hbn : toBoolean (getOpt b "name") = true) (hbc : toBoolean (getOpt b "cost") = true)
    (hdist : strictEq (getOpt a "name") (getOpt b "name") = false) :
    (addItem initialState a >>= fun s => addItem s b) =
        .ok { items := [setField "quantity" (.number (.fin 1)) (ownProps a),
          setField "quantity" (.number (.fin 1)) (ownProps b)] } ∧
      (dispatchAll [.addItem a, .addItem b]).items =
        [setField "quantity" (.number (.fin 1)) (ownProps a),
          setField "quantity" (.number (.fin 1)) (ownProps b)] ∧
      lookup "quantity" (setField "quantity" (.number (.fin 1)) (ownProps a)) =
        .number (.fin 1) ∧
      lookup "quantity" (setField "quantity" (.number (.fin 1)) (ownProps b)) =
        .number (.fin 1) ∧
      (∀ k, k ≠ "quantity" →
        lookup k (setField "quantity" (.number (.fin 1)) (ownProps a)) = getOpt a k) ∧
      (∀ k, k ≠ "quantity" →
        lookup k (setField "quantity" (.number (.fin 1)) (ownProps b)) = getOpt b k) := by
  obtain ⟨ra, fa, rfl⟩ := isObject_of_truthy_getOpt a "name" han
  obtain ⟨rb, fb, rfl⟩ := isObject_of_truthy_getOpt b "name" hbn
  simp only [getOpt] at han hac hbn hbc hdist
  have h1 := addItem_new initialState ra fa han hac (by simp [initialState])
  have h2 := addItem_new { items := [setField "quantity" (.number (.fin 1)) fa] } rb fb hbn hbc
    (by
      intro e he
      simp only [List.mem_singleton] at he
      subst he
      rw [name_setField_quantity]
      exact draftEq_false_of_strictEq _ _ hdist)
  simp only [initialState, List.nil_append, List.singleton_append] at h1 h2
  refine ⟨?_, ?_, lookup_setField_same _ _ _, lookup_setField_same _ _ _, ?_, ?_⟩
  · simp only [initialState, ownProps]
    rw [h1]
    exact h2
  · simp only [dispatchAll, List.foldl, dispatch, reducer, initialState, ownProps, h1, h2]
  · intro k hk
    simpa [getOpt, ownProps] using lookup_setField_other "quantity" k _ fa hk
  · intro k hk
    simpa [getOpt, ownProps] using lookup_setField_other "quantity" k _ fb hk

theorem C17_insertion_order_witness :
    (addItem initialState fern >>= fun s =>
        addItem s (.object 10 [("name", .string "Oak"), ("cost", .number (.fin 7))])) =
      .ok { items := [fernEntry (.fin 1), oakEntry] } :=
  (C17_insertion_order fern (.object 10 [("name", .string "Oak"), ("cost", .number (.fin 7))])
    (by simp [fern, getOpt, lookup, toBoolean])
    (by simp [fern, getOpt, lookup, toBoolean, JSNum.truthy])
    (by simp [getOpt, lookup, toBoolean])
    (by simp [getOpt, lookup, toBoolean, JSNum.truthy])
    (by simp [fern, getOpt, lookup, strictEq])).1.trans
    (by simp [fern, fernEntry, oakEntry, ownProps, setField])

/-- C18, at the failing input: applying `addItem({name: n, cost: 5})` twice on the empty
cart, with `n` a record, returns two entries of quantity 1 instead of a single entry of
quantity 2: the second call does not find the entry pushed by the first (line 25 compares
the stored name read through the draft). -/
theorem C18_record_name_not_merged :
    (addItem initialState recordNamed >>= fun s' => addItem s' recordNamed) =
        .ok { items := [recordEntry (.fin 1), recordEntry (.fin 1)] } ∧
      [recordEntry (.fin 1), recordEntry (.fin 1)] ≠ [recordEntry (.fin 2)] := by
  refine ⟨?_, by simp⟩
  simp [initialState, recordNamed, recordName, recordEntry, addItem, getOpt, getProp, lookup,
    toBoolean, JSNum.truthy, findIndex, draftEq, ownProps, setField, bind, Except.bind]

/-- C19: on every cart state with unique names, for every non-empty name `n` and every
numeric quantity `q <= 0`, `updateQuantity({name: n, quantity: q})` and `removeItem(n)`
return the same sequence; on the cart holding two entries named Fern the two differ
(`updateQuantity` removes the first one only, `removeItem` removes both). -/
theorem C19_update_nonpositive_eq_remove (s : CartState) (p : JSValue) (n : String) (q : JSNum)
    (hname : getOpt p "name" = .string n) (hne : n ≠ "")
    (hq : getOpt p "quantity" = .number q) (hle : q.le (.fin 0) = true)
    (hu : NamesUnique s.items) :
    updateQuantity s p = removeItem s (.string n) ∧
      updateQuantity { items := [fernEntry (.fin 1), fernEntry (.fin 1)] }
          (fernQuantity (.fin 0)) = .ok { items := [fernEntry (.fin 1)] } ∧
      removeItem { items := [fernEntry (.fin 1), fernEntry (.fin 1)] } (.string "Fern") =
        .ok { items := [] } ∧
      updateQuantity { items := [fernEntry (.fin 1), fernEntry (.fin 1)] }
          (fernQuantity (.fin 0)) ≠
        removeItem { items := [fernEntry (.fin 1), fernEntry (.fin 1)] } (.string "Fern") := by
  have hn : toBoolean (getOpt p "name") = true := by simp [hname, toBoolean, hne]
  have hr : toBoolean (resolveName (.string n)) = true := by
    simp [resolveName, typeOf, toBoolean, hne]
  have hres : resolveName (.string n) = .string n := by simp [resolveName, typeOf]
  have hupd : updateQuantity { items := [fernEntry (.fin 1), fernEntry (.fin 1)] }
      (fernQuantity (.fin 0)) = .ok { items := [fernEntry (.fin 1)] } := by
    simp [fernQuantity, fernEntry, updateQuantity, getProp, lookup, jsOr, toBoolean, JSNum.le,
      findIndex, strictEq, draftEq, bind, Except.bind]
  have hrem : removeItem { items := [fernEntry (.fin 1), fernEntry (.fin 1)] }
      (.string "Fern") = .ok { items := [] } := by
    simp [fernEntry, removeItem, typeOf, toBoolean, lookup, strictEq, draftEq]
  refine ⟨?_, ?_, ?_, ?_⟩
  · have hprim : isRecord (JSValue.string n) = false := rfl
    rw [removeItem_valid s _ hr, hres, draftEq_filter_pred _ hprim]
    rcases findIndex_spec Entry
        (fun item => strictEq (lookup "name" item) (.string n)) s.items with
      ⟨_, h2⟩ | ⟨pre, x, post, hxs, _, hx, hpre⟩
    · rw [updateQuantity_absent s p q hn hq
          (fun e he => draftEq_false_of_strictEq _ _ (by rw [hname]; exact h2 e he)), hname,
        filter_eq_self_of_all _ s.items (by intro a ha; simp [h2 a ha]), cartState_eta]
      simp [toStringCompletes]
    · rw [updateQuantity_remove s p q pre post x hn hq hle hxs
          (by rw [hname, draftEq_of_not_record _ _ hprim]; exact hx)
          (fun e he => by rw [hname, draftEq_of_not_record _ _ hprim]; exact hpre e he), hxs,
        filter_split_unique pre post x (.string n) (hxs ▸ hu) hx hpre]
  · exact hupd
  · exact hrem
  · rw [hupd, hrem]
    simp

theorem C19_update_nonpositive_eq_remove_witness :
    updateQuantity { items := [oakEntry, fernEntry (.fin 1)] } (fernQuantity (.fin 0)) =
      removeItem { items := [oakEntry, fernEntry (.fin 1)] } (.string "Fern") :=
  (C19_update_nonpositive_eq_remove { items := [oakEntry, fernEntry (.fin 1)] }
    (fernQuantity (.fin 0)) "Fern" (.fin 0)
    (by simp [fernQuantity, getOpt, lookup]) (by decide)
    (by simp [fernQuantity, getOpt, lookup]) (by simp [JSNum.le])
    (by simp [NamesUnique, oakEntry, fernEntry, lookup, strictEq, draftEq])).1

/-- C20, at the failing input: for the dispatch list `[addItem(p), addItem(p)]` with
`p = {name: n, cost: 5}` and `n` a record, the specification assigns one entry of quantity 2
(`tally`), while the reducer leaves two entries of quantity 1: the second dispatch does not
find the entry pushed by the first. -/
theorem C20_record_name_counted_apart :
    (dispatchAll ([recordNamed, recordNamed].map Action.addItem)).items =
        [recordEntry (.fin 1), recordEntry (.fin 1)] ∧
      tally [recordNamed, recordNamed] = [recordEntry (.fin 2)] ∧
      (dispatchAll ([recordNamed, recordNamed].map Action.addItem)).items ≠
        tally [recordNamed, recordNamed] := by
  have h1 : (dispatchAll ([recordNamed, recordNamed].map Action.addItem)).items =
      [recordEntry (.fin 1), recordEntry (.fin 1)] := dispatchAll_recordNamed_twice
  have h2 : tally [recordNamed, recordNamed] = [recordEntry (.fin 2)] := by
    simp [tally, tallyEntry, firstDispatches, countDispatches, validPlant, recordNamed,
      recordName, recordEntry, getOpt, lookup, toBoolean, JSNum.truthy, strictEq, ownProps,
      setField, List.filter_cons]
  refine ⟨h1, h2, ?_⟩
  rw [h1, h2]
  simp

end CartSlice
